import Mathlib

/-!
Verification of the `srt` (Simple Ray Tracer) rendering kernel.

This file gives a shallow embedding of the kernel found in `src/vector.c`,
`src/sphere.c` and `src/render.c`:

* `vector_sub`, `vector_length`, `vector_normal`, `vector_dot` embed the
  vector primitives of `vector.c`;
* `sphere_intersect` embeds the ray/sphere intersection test of `sphere.c`;
* `render_scene` embeds the per-pixel rendering loop of `render.c`, with the
  inner sphere loop factored out as `find_closest` and the per-pixel scan as
  `render_loop` over the pixel list `pixels` (y outer, x inner, exactly the
  order of the C `for` loops, with the byte offset advancing by 3 per pixel).

C `float` arithmetic is idealized as real arithmetic; `uint8_t` stores are
modelled by `% 256` on the integer color components, and the image buffer by
a list of `image_sz` integers that `memset` initializes to zero.  The early
`return 1` inside the hit branch of `render_scene` is modelled by returning
the pair `(1, buffer-so-far)`; a completed render returns `(0, buffer)`.
-/

/-- Embedding of `vector_t` from `vector.h`: a 3D vector with x, y, z. -/
structure vector_t where
  x : ℝ
  y : ℝ
  z : ℝ
deriving Inhabited

/-- Embedding of `ray_t` from `ray.h`: origin and direction. -/
structure ray_t where
  origin : vector_t
  dir : vector_t
deriving Inhabited

/-- Embedding of `sphere_t` from `sphere.h`: center, radius and RGB color. -/
structure sphere_t where
  center : vector_t
  radius : ℝ
  r : ℤ
  g : ℤ
  b : ℤ
deriving Inhabited

/-- Embedding of `camera_t` from `camera.h`: position and field of view. -/
structure camera_t where
  pos : vector_t
  fov : ℝ
deriving Inhabited

/-- Embedding of `vector_sub` from `vector.c`: component-wise `v1 - v2`. -/
def vector_sub (v1 v2 : vector_t) : vector_t :=
  ⟨v1.x - v2.x, v1.y - v2.y, v1.z - v2.z⟩

/-- Embedding of `vector_length` from `vector.c`:
`sqrt (x*x + y*y + z*z)`. -/
noncomputable def vector_length (v : vector_t) : ℝ :=
  Real.sqrt (v.x * v.x + v.y * v.y + v.z * v.z)

/-- Embedding of `vector_normal` from `vector.c`: divide each component by
the length, where a zero length is replaced by 1 before dividing. -/
noncomputable def vector_normal (v : vector_t) : vector_t :=
  let len0 := vector_length v
  let len := if len0 = 0 then 1 else len0
  ⟨v.x / len, v.y / len, v.z / len⟩

/-- Embedding of `vector_dot` from `vector.c`. -/
def vector_dot (v1 v2 : vector_t) : ℝ :=
  v1.x * v2.x + v1.y * v2.y + v1.z * v2.z

/-- Embedding of `sphere_intersect` from `sphere.c`: project the
origin-to-center vector onto the ray direction, reject `v < 0`, compute
`d2 = r*r - c*c + v*v`, reject `d2 < 0`, else return `v - sqrt d2`. -/
noncomputable def sphere_intersect (sphere : sphere_t) (ray : ray_t) : ℝ :=
  let oe := vector_sub sphere.center ray.origin
  let c := vector_length oe
  let v := vector_dot oe ray.dir
  if v < 0 then 0
  else
    let d2 := sphere.radius * sphere.radius - c * c + v * v
    if d2 < 0 then 0
    else v - Real.sqrt d2

/-- Ray construction for one pixel from `render_scene` (`render.c` lines
115–120): direction `(tan fovX * (2x − W)/W, tan fovY * (2y − H)/H, −1)`,
then normalized; the origin is the camera position. -/
noncomputable def pixel_ray (origin : vector_t) (fov_x fov_y : ℝ)
    (screen_width screen_height : ℕ) (x y : ℕ) : ray_t :=
  let dir : vector_t :=
    ⟨Real.tan fov_x * (2 * (x : ℝ) - screen_width) / screen_width,
     Real.tan fov_y * (2 * (y : ℝ) - screen_height) / screen_height,
     -1⟩
  ⟨origin, vector_normal dir⟩

/-- Inner sphere loop of `render_scene` (`render.c` lines 123–142): walk the
sphere list with index `i`, keeping the accumulator `(closest_sphere,
min_dist)`; a sphere replaces the accumulator only when its distance is
positive and strictly below the current minimum. -/
noncomputable def find_closest_aux (ray : ray_t) :
    List sphere_t → ℤ → ℤ × ℝ → ℤ × ℝ
  | [], _, acc => acc
  | sphere :: rest, i, acc =>
    let dist := sphere_intersect sphere ray
    let acc1 := if 0 < dist ∧ dist < acc.2 then (i, dist) else acc
    find_closest_aux ray rest (i + 1) acc1

/-- The inner sphere loop started as in `render.c`: `closest_sphere = -1`,
`min_dist = 100000`, index from 0. -/
noncomputable def find_closest (sphere_list : List sphere_t) (ray : ray_t) : ℤ × ℝ :=
  find_closest_aux ray sphere_list 0 (-1, 100000)

/-- Pixel traversal order of the two nested `for` loops of `render_scene`:
`y` outer from 0 to height−1, `x` inner from 0 to width−1. -/
def pixels (screen_width screen_height : ℕ) : List (ℕ × ℕ) :=
  (List.range screen_height).flatMap fun y =>
    (List.range screen_width).map fun x => (y, x)

/-- Per-pixel body of `render_scene` (`render.c` lines 92–166) over the
remaining pixel list: build the ray, find the closest sphere; on a hit,
return 1 if the offset has reached the buffer size, otherwise store the
sphere's color bytes (int to `uint8_t` is reduction mod 256); the offset
advances by 3 for every pixel. -/
noncomputable def render_loop (sphere_list : List sphere_t) (origin : vector_t)
    (fov_x fov_y : ℝ) (screen_width screen_height : ℕ) (image_sz : ℕ) :
    List (ℕ × ℕ) → List ℤ → ℕ → ℤ × List ℤ
  | [], image, _ => (0, image)
  | (y, x) :: rest, image, image_ofs =>
    let ray := pixel_ray origin fov_x fov_y screen_width screen_height x y
    let closest := find_closest sphere_list ray
    if closest.1 ≠ -1 then
      if image_sz ≤ image_ofs then (1, image)
      else
        let sphere := sphere_list.getD closest.1.toNat default
        let image1 := ((image.set image_ofs (sphere.r % 256)).set
            (image_ofs + 1) (sphere.g % 256)).set (image_ofs + 2) (sphere.b % 256)
        render_loop sphere_list origin fov_x fov_y screen_width screen_height
          image_sz rest image1 (image_ofs + 3)
    else
      render_loop sphere_list origin fov_x fov_y screen_width screen_height
        image_sz rest image (image_ofs + 3)

/-- Embedding of `render_scene` from `render.c`: fixed `fov_x = 3.14/4`,
`fov_y = fov_x * (height/width)`, buffer of `image_sz` bytes cleared to 0 by
`memset`, then the pixel scan; the camera contributes only its position. -/
noncomputable def render_scene (image_sz : ℕ) (screen_width screen_height : ℕ)
    (cam : camera_t) (sphere_list : List sphere_t) : ℤ × List ℤ :=
  let aspect_ratio : ℝ := (screen_height : ℝ) / (screen_width : ℝ)
  let fov_x : ℝ := 3.14 / 4
  let fov_y : ℝ := fov_x * aspect_ratio
  let image : List ℤ := List.replicate image_sz 0
  render_loop sphere_list cam.pos fov_x fov_y screen_width screen_height image_sz
    (pixels screen_width screen_height) image 0

/-- Proposition: the ray through pixel `p = (y, x)` records some sphere,
i.e. the inner loop ends with `closest_sphere ≠ -1`. -/
def pixel_hit (sphere_list : List sphere_t) (origin : vector_t) (fov_x fov_y : ℝ)
    (screen_width screen_height : ℕ) (p : ℕ × ℕ) : Prop :=
  (find_closest sphere_list
    (pixel_ray origin fov_x fov_y screen_width screen_height p.2 p.1)).1 ≠ -1

/-- Camera at the origin (fov value irrelevant to the kernel). -/
def cam0 : camera_t := ⟨⟨0, 0, 0⟩, 0⟩

/-- Ray from the origin straight down the negative z axis; this is exactly
the ray `render_scene` builds for pixel (1,1) of a 2×2 image. -/
def ray0 : ray_t := ⟨⟨0, 0, 0⟩, ⟨0, 0, -1⟩⟩

/-- Red unit sphere ten units in front of the camera. -/
def s10 : sphere_t := ⟨⟨0, 0, -10⟩, 1, 255, 0, 0⟩

/-- Red sphere of radius 100 at z = −200000: it is hit by `ray0` at the
positive distance 199900, which is beyond the 100000 sentinel. -/
def far_sphere : sphere_t := ⟨⟨0, 0, -200000⟩, 100, 255, 0, 0⟩

/-- Distance from the origin to `s10` along `ray0`: c = 10, v = 10,
d2 = 1 − 100 + 100 = 1, so the result is 10 − 1 = 9. -/
theorem s10_dist : sphere_intersect s10 ray0 = 9 := by
  simp only [sphere_intersect, s10, ray0, vector_sub, vector_dot, vector_length]
  norm_num

/-- Distance from the origin to `far_sphere` along `ray0`: c = v = 200000,
d2 = 10000, so the result is 200000 − 100 = 199900. -/
theorem far_dist : sphere_intersect far_sphere ray0 = 199900 := by
  simp only [sphere_intersect, far_sphere, ray0, vector_sub, vector_dot, vector_length]
  norm_num
  rw [show (10000:ℝ) = 100 ^ 2 by norm_num, Real.sqrt_sq (by norm_num : (0:ℝ) ≤ 100)]
  norm_num

/-- Claim C5: if the projection of center − origin onto the ray direction is
negative (sphere center behind the ray origin along the ray), then
`sphere_intersect` returns the no-hit sentinel 0, regardless of whether the
infinite line through the ray would meet the sphere. -/
theorem C5_behind_no_hit (s : sphere_t) (ray : ray_t)
    (h : vector_dot (vector_sub s.center ray.origin) ray.dir < 0) :
    sphere_intersect s ray = 0 := by
  simp only [sphere_intersect]
  rw [if_pos h]

/-- Witness for C5: a unit sphere centered at (0,0,5) is behind a ray from
the origin pointing along (0,0,−1); the projection is −5 < 0 and the test
reports no hit even though the z-axis line meets the sphere. -/
theorem C5_behind_no_hit_witness :
    sphere_intersect ⟨⟨0, 0, 5⟩, 1, 0, 255, 0⟩ ⟨⟨0, 0, 0⟩, ⟨0, 0, -1⟩⟩ = 0 := by
  refine C5_behind_no_hit _ _ ?_
  simp only [vector_dot, vector_sub]
  norm_num

/-- Claim C4: for a unit-direction ray with nonnegative projection
`v = dot(center − origin, dir)`, `sphere_intersect` returns 0 when
`d2 = r*r − c*c + v*v` is negative and exactly `v − sqrt d2` otherwise,
where `c = length(center − origin)`. -/
theorem C4_intersect_formula (s : sphere_t) (ray : ray_t)
    (hunit : vector_length ray.dir = 1)
    (hv : 0 ≤ vector_dot (vector_sub s.center ray.origin) ray.dir) :
    (s.radius * s.radius
        - vector_length (vector_sub s.center ray.origin)
          * vector_length (vector_sub s.center ray.origin)
        + vector_dot (vector_sub s.center ray.origin) ray.dir
          * vector_dot (vector_sub s.center ray.origin) ray.dir < 0 →
      sphere_intersect s ray = 0) ∧
    (0 ≤ s.radius * s.radius
        - vector_length (vector_sub s.center ray.origin)
          * vector_length (vector_sub s.center ray.origin)
        + vector_dot (vector_sub s.center ray.origin) ray.dir
          * vector_dot (vector_sub s.center ray.origin) ray.dir →
      sphere_intersect s ray
        = vector_dot (vector_sub s.center ray.origin) ray.dir
          - Real.sqrt (s.radius * s.radius
              - vector_length (vector_sub s.center ray.origin)
                * vector_length (vector_sub s.center ray.origin)
              + vector_dot (vector_sub s.center ray.origin) ray.dir
                * vector_dot (vector_sub s.center ray.origin) ray.dir)) := by
  constructor
  · intro hd2
    simp only [sphere_intersect]
    rw [if_neg (not_lt.2 hv), if_pos hd2]
  · intro hd2
    simp only [sphere_intersect]
    rw [if_neg (not_lt.2 hv), if_neg (not_lt.2 hd2)]

/-- Claim C7: `vector_normal` leaves a zero-length vector unchanged (the
divisor is replaced by 1), and normalizes every vector of nonzero length to
length exactly 1; it is total, with no error signalling. -/
theorem C7_normal_spec (v : vector_t) :
    (vector_length v = 0 → vector_normal v = v) ∧
    (vector_length v ≠ 0 → vector_length (vector_normal v) = 1) := by
  constructor
  · intro h
    cases v with
    | mk x y z =>
      simp only [vector_normal, h, if_pos rfl]
      simp
  · intro h
    have hq : 0 ≤ v.x * v.x + v.y * v.y + v.z * v.z :=
      add_nonneg (add_nonneg (mul_self_nonneg _) (mul_self_nonneg _)) (mul_self_nonneg _)
    have hq0 : v.x * v.x + v.y * v.y + v.z * v.z ≠ 0 := by
      intro h0
      exact h (by simp [vector_length, h0])
    have hl : vector_length v * vector_length v
        = v.x * v.x + v.y * v.y + v.z * v.z := Real.mul_self_sqrt hq
    simp only [vector_normal, if_neg h]
    simp only [vector_length] at *
    have hlne : Real.sqrt (v.x * v.x + v.y * v.y + v.z * v.z) ≠ 0 := h
    have harg : v.x / Real.sqrt (v.x * v.x + v.y * v.y + v.z * v.z)
          * (v.x / Real.sqrt (v.x * v.x + v.y * v.y + v.z * v.z))
        + v.y / Real.sqrt (v.x * v.x + v.y * v.y + v.z * v.z)
          * (v.y / Real.sqrt (v.x * v.x + v.y * v.y + v.z * v.z))
        + v.z / Real.sqrt (v.x * v.x + v.y * v.y + v.z * v.z)
          * (v.z / Real.sqrt (v.x * v.x + v.y * v.y + v.z * v.z)) = 1 := by
      rw [div_mul_div_comm, div_mul_div_comm, div_mul_div_comm, hl,
        div_add_div_same, div_add_div_same, div_self hq0]
    rw [harg, Real.sqrt_one]

/-- Witness for C7: the zero vector normalizes to itself, and (3,4,0), of
length 5, normalizes to a vector of length exactly 1. -/
theorem C7_normal_spec_witness :
    vector_normal ⟨0, 0, 0⟩ = ⟨0, 0, 0⟩ ∧
    vector_length (vector_normal ⟨3, 4, 0⟩) = 1 := by
  constructor
  · exact (C7_normal_spec _).1 (by simp [vector_length])
  · refine (C7_normal_spec _).2 ?_
    simp only [vector_length]
    norm_num

/-- Witness for C4: for `s10` and `ray0` the projection v = 10 is
nonnegative, the direction is unit length, and d2 = 1 ≥ 0, so the theorem
yields the exact near-root distance. -/
theorem C4_intersect_formula_witness :
    sphere_intersect s10 ray0
      = vector_dot (vector_sub s10.center ray0.origin) ray0.dir
        - Real.sqrt (s10.radius * s10.radius
            - vector_length (vector_sub s10.center ray0.origin)
              * vector_length (vector_sub s10.center ray0.origin)
            + vector_dot (vector_sub s10.center ray0.origin) ray0.dir
              * vector_dot (vector_sub s10.center ray0.origin) ray0.dir) := by
  refine (C4_intersect_formula s10 ray0 ?_ ?_).2 ?_
  · simp only [ray0, vector_length]
    norm_num [Real.sqrt_one]
  · simp only [s10, ray0, vector_sub, vector_dot]
    norm_num
  · simp only [s10, ray0, vector_sub, vector_dot, vector_length]
    norm_num

/-- Claim C6: for a ray whose direction is the normalized vector from an
origin outside the sphere exactly toward the sphere's center, the distance
returned by `sphere_intersect` equals `length(center − origin) − radius`
(exactly, in the real-number model of float arithmetic). -/
theorem C6_through_center (s : sphere_t) (origin : vector_t)
    (hr : 0 ≤ s.radius)
    (hout : s.radius < vector_length (vector_sub s.center origin)) :
    sphere_intersect s ⟨origin, vector_normal (vector_sub s.center origin)⟩
      = vector_length (vector_sub s.center origin) - s.radius := by
  have hcpos : 0 < vector_length (vector_sub s.center origin) :=
    lt_of_le_of_lt hr hout
  have hcne : vector_length (vector_sub s.center origin) ≠ 0 := ne_of_gt hcpos
  have hq : 0 ≤ (vector_sub s.center origin).x * (vector_sub s.center origin).x
      + (vector_sub s.center origin).y * (vector_sub s.center origin).y
      + (vector_sub s.center origin).z * (vector_sub s.center origin).z :=
    add_nonneg (add_nonneg (mul_self_nonneg _) (mul_self_nonneg _)) (mul_self_nonneg _)
  have hcc : vector_length (vector_sub s.center origin)
        * vector_length (vector_sub s.center origin)
      = (vector_sub s.center origin).x * (vector_sub s.center origin).x
        + (vector_sub s.center origin).y * (vector_sub s.center origin).y
        + (vector_sub s.center origin).z * (vector_sub s.center origin).z :=
    Real.mul_self_sqrt hq
  have hnorm : vector_normal (vector_sub s.center origin)
      = ⟨(vector_sub s.center origin).x / vector_length (vector_sub s.center origin),
         (vector_sub s.center origin).y / vector_length (vector_sub s.center origin),
         (vector_sub s.center origin).z / vector_length (vector_sub s.center origin)⟩ := by
    simp only [vector_normal, if_neg hcne]
  have hdot : vector_dot (vector_sub s.center origin)
        (vector_normal (vector_sub s.center origin))
      = vector_length (vector_sub s.center origin) := by
    rw [hnorm]
    simp only [vector_dot]
    rw [show (vector_sub s.center origin).x
          * ((vector_sub s.center origin).x / vector_length (vector_sub s.center origin))
        + (vector_sub s.center origin).y
          * ((vector_sub s.center origin).y / vector_length (vector_sub s.center origin))
        + (vector_sub s.center origin).z
          * ((vector_sub s.center origin).z / vector_length (vector_sub s.center origin))
        = ((vector_sub s.center origin).x * (vector_sub s.center origin).x
            + (vector_sub s.center origin).y * (vector_sub s.center origin).y
            + (vector_sub s.center origin).z * (vector_sub s.center origin).z)
          / vector_length (vector_sub s.center origin) by ring, ← hcc]
    exact mul_div_cancel_right₀ _ hcne
  simp only [sphere_intersect, hdot]
  rw [if_neg (not_lt.2 hcpos.le)]
  rw [show s.radius * s.radius
        - vector_length (vector_sub s.center origin)
          * vector_length (vector_sub s.center origin)
        + vector_length (vector_sub s.center origin)
          * vector_length (vector_sub s.center origin)
      = s.radius * s.radius by ring]
  rw [if_neg (not_lt.2 (mul_self_nonneg _)), Real.sqrt_mul_self hr]

/-- Witness for C6: a unit sphere at (0,0,−3) seen from the origin along the
normalized center direction gives distance sqrt 9 − 1 = 3 − 1. -/
theorem C6_through_center_witness :
    sphere_intersect ⟨⟨0, 0, -3⟩, 1, 0, 0, 255⟩
        ⟨⟨0, 0, 0⟩, vector_normal (vector_sub (⟨0, 0, -3⟩ : vector_t) ⟨0, 0, 0⟩)⟩
      = vector_length (vector_sub (⟨0, 0, -3⟩ : vector_t) ⟨0, 0, 0⟩) - 1 := by
  refine C6_through_center ⟨⟨0, 0, -3⟩, 1, 0, 0, 255⟩ ⟨0, 0, 0⟩ (by norm_num) ?_
  simp only [vector_sub, vector_length]
  norm_num
  rw [show (9:ℝ) = 3 ^ 2 by norm_num, Real.sqrt_sq (by norm_num : (0:ℝ) ≤ 3)]
  norm_num

/-- With an empty sphere list the inner loop returns its start accumulator
`(-1, 100000)`. -/
theorem find_closest_nil (ray : ray_t) : find_closest [] ray = (-1, 100000) := rfl

/-- With an empty sphere list no pixel ever hits, so the scan returns status
0 and never touches the buffer. -/
theorem render_loop_nil_spheres (origin : vector_t) (fov_x fov_y : ℝ)
    (screen_width screen_height image_sz : ℕ) :
    ∀ (pixel_list : List (ℕ × ℕ)) (image : List ℤ) (image_ofs : ℕ),
      render_loop [] origin fov_x fov_y screen_width screen_height image_sz
        pixel_list image image_ofs = (0, image) := by
  intro pixel_list
  induction pixel_list with
  | nil => intro image image_ofs; rfl
  | cons p rest ih =>
    intro image image_ofs
    obtain ⟨y, x⟩ := p
    simp only [render_loop, find_closest_nil]
    norm_num
    exact ih image (image_ofs + 3)

/-- Claim C2: the rendered output does not depend on the camera's stored
field-of-view value: two calls identical except for `cam.fov` produce the
same status and byte-identical buffers, because `render_scene` uses the
fixed constant `3.14/4` and `fov_y = fov_x * (height/width)`, reading only
`cam.pos` from the camera. -/
theorem C2_fov_unused (image_sz screen_width screen_height : ℕ)
    (pos : vector_t) (fov1 fov2 : ℝ) (sphere_list : List sphere_t) :
    render_scene image_sz screen_width screen_height ⟨pos, fov1⟩ sphere_list
      = render_scene image_sz screen_width screen_height ⟨pos, fov2⟩ sphere_list := rfl

/-- Claim C8: the buffer starts as `image_sz` zero bytes (the `memset`
background fill), and rendering an empty sphere list succeeds with the
buffer still all zeros. -/
theorem C8_background_zero (image_sz screen_width screen_height : ℕ)
    (cam : camera_t) :
    render_scene image_sz screen_width screen_height cam []
      = (0, List.replicate image_sz 0) := by
  simp only [render_scene]
  exact render_loop_nil_spheres _ _ _ _ _ _ _ _ _

/-- Invariant of the inner sphere loop: starting from accumulator
`(cl, m)` at index `i`, the final minimum never exceeds `m`, is a lower
bound of every positive distance in the list, and either the accumulator is
returned unchanged or some list entry `j` with a positive distance strictly
below `m` is selected, strictly beating every earlier positive distance. -/
theorem find_closest_aux_spec (ray : ray_t) (S : List sphere_t) :
    ∀ (i cl : ℤ) (m : ℝ),
      (find_closest_aux ray S i (cl, m)).2 ≤ m ∧
      (∀ k, k < S.length →
        0 < sphere_intersect (S.getD k default) ray →
        (find_closest_aux ray S i (cl, m)).2
          ≤ sphere_intersect (S.getD k default) ray) ∧
      (find_closest_aux ray S i (cl, m) = (cl, m) ∨
        ∃ j, j < S.length ∧
          (find_closest_aux ray S i (cl, m)).1 = i + (j : ℤ) ∧
          (find_closest_aux ray S i (cl, m)).2
            = sphere_intersect (S.getD j default) ray ∧
          0 < (find_closest_aux ray S i (cl, m)).2 ∧
          (find_closest_aux ray S i (cl, m)).2 < m ∧
          ∀ k, k < j →
            0 < sphere_intersect (S.getD k default) ray →
            (find_closest_aux ray S i (cl, m)).2
              < sphere_intersect (S.getD k default) ray) := by
  induction S with
  | nil =>
    intro i cl m
    refine ⟨le_refl m, ?_, Or.inl rfl⟩
    intro k hk
    simp at hk
  | cons s rest ih =>
    intro i cl m
    by_cases h : 0 < sphere_intersect s ray ∧ sphere_intersect s ray < m
    · have heq : find_closest_aux ray (s :: rest) i (cl, m)
          = find_closest_aux ray rest (i + 1) (i, sphere_intersect s ray) := by
        simp only [find_closest_aux, if_pos h]
      obtain ⟨ha, hb, hc⟩ := ih (i + 1) i (sphere_intersect s ray)
      refine ⟨?_, ?_, ?_⟩
      · rw [heq]
        exact ha.trans h.2.le
      · intro k hk hpos
        rw [heq]
        cases k with
        | zero =>
          rw [List.getD_cons_zero]
          exact ha
        | succ k1 =>
          rw [List.getD_cons_succ]
          rw [List.getD_cons_succ] at hpos
          exact hb k1 (by simpa using hk) hpos
      · right
        rcases hc with hc | ⟨j, hj, h1, h2, h3, h4, h5⟩
        · refine ⟨0, by simp, ?_, ?_, ?_, ?_, ?_⟩
          · rw [heq, hc]
            simp
          · rw [heq, hc, List.getD_cons_zero]
          · rw [heq, hc]
            exact h.1
          · rw [heq, hc]
            exact h.2
          · intro k hk
            exact absurd hk (Nat.not_lt_zero k)
        · refine ⟨j + 1, by simpa using hj, ?_, ?_, ?_, ?_, ?_⟩
          · rw [heq, h1]
            push_cast
            ring
          · rw [heq, h2, List.getD_cons_succ]
          · rw [heq]
            exact h3
          · rw [heq]
            exact h4.trans h.2
          · intro k hk hpos
            rw [heq]
            cases k with
            | zero =>
              rw [List.getD_cons_zero] at hpos ⊢
              exact h4
            | succ k1 =>
              rw [List.getD_cons_succ] at hpos ⊢
              exact h5 k1 (by omega) hpos
    · have heq : find_closest_aux ray (s :: rest) i (cl, m)
          = find_closest_aux ray rest (i + 1) (cl, m) := by
        simp only [find_closest_aux, if_neg h]
      obtain ⟨ha, hb, hc⟩ := ih (i + 1) cl m
      refine ⟨?_, ?_, ?_⟩
      · rw [heq]
        exact ha
      · intro k hk hpos
        rw [heq]
        cases k with
        | zero =>
          rw [List.getD_cons_zero] at hpos ⊢
          have hm : ¬ sphere_intersect s ray < m := fun hlt => h ⟨hpos, hlt⟩
          exact ha.trans (not_lt.1 hm)
        | succ k1 =>
          rw [List.getD_cons_succ] at hpos ⊢
          exact hb k1 (by simpa using hk) hpos
      · rcases hc with hc | ⟨j, hj, h1, h2, h3, h4, h5⟩
        · left
          rw [heq, hc]
        · right
          refine ⟨j + 1, by simpa using hj, ?_, ?_, ?_, ?_, ?_⟩
          · rw [heq, h1]
            push_cast
            ring
          · rw [heq, h2, List.getD_cons_succ]
          · rw [heq]
            exact h3
          · rw [heq]
            exact h4
          · intro k hk hpos
            rw [heq]
            cases k with
            | zero =>
              rw [List.getD_cons_zero] at hpos ⊢
              have hm : ¬ sphere_intersect s ray < m := fun hlt => h ⟨hpos, hlt⟩
              exact h4.trans_le (not_lt.1 hm)
            | succ k1 =>
              rw [List.getD_cons_succ] at hpos ⊢
              exact h5 k1 (by omega) hpos

/-- Claim C3 (amended): whenever some sphere's intersection distance for the
pixel ray is positive and below the 100000 sentinel, the inner loop selects
a sphere index `j` achieving the minimum positive distance (so the pixel is
colored with that sphere); every positive distance is at least the selected
one, and every sphere of smaller index with a positive distance is strictly
farther — bit-identical minimal distances are resolved to the lowest index
because the comparison is strict `<`. -/
theorem C3_nearest_hit (S : List sphere_t) (ray : ray_t)
    (h : ∃ k, k < S.length ∧ 0 < sphere_intersect (S.getD k default) ray ∧
          sphere_intersect (S.getD k default) ray < 100000) :
    ∃ j, j < S.length ∧
      find_closest S ray = ((j : ℤ), sphere_intersect (S.getD j default) ray) ∧
      0 < sphere_intersect (S.getD j default) ray ∧
      (∀ k, k < S.length → 0 < sphere_intersect (S.getD k default) ray →
        sphere_intersect (S.getD j default) ray
          ≤ sphere_intersect (S.getD k default) ray) ∧
      (∀ k, k < j → 0 < sphere_intersect (S.getD k default) ray →
        sphere_intersect (S.getD j default) ray
          < sphere_intersect (S.getD k default) ray) := by
  obtain ⟨ha, hb, hc⟩ := find_closest_aux_spec ray S 0 (-1) 100000
  obtain ⟨k0, hk0, hpos0, hlt0⟩ := h
  have hfc : find_closest S ray = find_closest_aux ray S 0 (-1, 100000) := rfl
  rcases hc with hc | ⟨j, hj, h1, h2, h3, h4, h5⟩
  · exfalso
    have hle := hb k0 hk0 hpos0
    rw [hc] at hle
    exact absurd hlt0 (not_lt.2 hle)
  · refine ⟨j, hj, ?_, h2 ▸ h3, ?_, ?_⟩
    · rw [hfc]
      refine Prod.ext ?_ h2
      rw [h1]
      ring
    · intro k hk hpos
      have := hb k hk hpos
      rwa [h2] at this
    · intro k hk hpos
      have := h5 k hk hpos
      rwa [h2] at this

/-- Claim C9: the "no hit yet" sentinel is the finite constant 100000:
a sphere whose positive distance is ≥ 100000 is never recorded as the
closest hit, and if every positive distance is ≥ 100000 the loop ends with
`(-1, 100000)`, so the pixel keeps the background color even though a valid
positive intersection exists. -/
theorem C9_finite_sentinel (S : List sphere_t) (ray : ray_t) :
    (∀ k, k < S.length → 0 < sphere_intersect (S.getD k default) ray →
        (100000:ℝ) ≤ sphere_intersect (S.getD k default) ray →
        (find_closest S ray).1 ≠ (k : ℤ)) ∧
    ((∀ k, k < S.length → 0 < sphere_intersect (S.getD k default) ray →
        (100000:ℝ) ≤ sphere_intersect (S.getD k default) ray) →
      find_closest S ray = (-1, 100000)) := by
  obtain ⟨ha, hb, hc⟩ := find_closest_aux_spec ray S 0 (-1) 100000
  have hfc : find_closest S ray = find_closest_aux ray S 0 (-1, 100000) := rfl
  constructor
  · intro k hk hpos hge heq
    rw [hfc] at heq
    rcases hc with hc | ⟨j, hj, h1, h2, h3, h4, h5⟩
    · rw [hc] at heq
      simp at heq
    · rw [h1] at heq
      have hjk : j = k := by omega
      subst hjk
      rw [h2] at h4
      exact absurd hge (not_le.2 h4)
  · intro hall
    rcases hc with hc | ⟨j, hj, h1, h2, h3, h4, h5⟩
    · rw [hfc, hc]
    · exfalso
      have hdj : 0 < sphere_intersect (S.getD j default) ray := h2 ▸ h3
      have hge := hall j hj hdj
      rw [h2] at h4
      exact absurd hge (not_le.2 h4)

/-- The pixel list has one entry per pixel: height * width of them. -/
theorem pixels_length (screen_width screen_height : ℕ) :
    (pixels screen_width screen_height).length
      = screen_height * screen_width := by
  simp [pixels, List.length_flatMap, Function.comp_def, List.map_const',
    List.sum_replicate, smul_eq_mul]

/-- If some pixel in the remaining scan both hits a sphere and sits at a
byte offset past the buffer bound, the scan returns status 1: the abort is
reached either at that pixel or at an earlier offending pixel. -/
theorem render_loop_abort (sphere_list : List sphere_t) (origin : vector_t)
    (fov_x fov_y : ℝ) (screen_width screen_height image_sz : ℕ) :
    ∀ (pixel_list : List (ℕ × ℕ)) (image : List ℤ) (image_ofs : ℕ),
      (∃ k, k < pixel_list.length ∧
        pixel_hit sphere_list origin fov_x fov_y screen_width screen_height
          (pixel_list.getD k (0, 0)) ∧
        image_sz ≤ image_ofs + 3 * k) →
      (render_loop sphere_list origin fov_x fov_y screen_width screen_height
        image_sz pixel_list image image_ofs).1 = 1 := by
  intro pixel_list
  induction pixel_list with
  | nil =>
    intro image image_ofs h
    obtain ⟨k, hk, _⟩ := h
    simp at hk
  | cons p rest ih =>
    intro image image_ofs h
    obtain ⟨k, hk, hhit, hsz⟩ := h
    obtain ⟨y, x⟩ := p
    by_cases hcl : (find_closest sphere_list
        (pixel_ray origin fov_x fov_y screen_width screen_height x y)).1 ≠ -1
    · by_cases hb : image_sz ≤ image_ofs
      · simp only [render_loop]
        rw [if_pos hcl, if_pos hb]
      · cases k with
        | zero => exact absurd (by simpa using hsz) hb
        | succ k1 =>
          simp only [render_loop]
          rw [if_pos hcl, if_neg hb]
          apply ih
          refine ⟨k1, by simpa using hk, ?_, by omega⟩
          simpa [List.getD_cons_succ] using hhit
    · cases k with
      | zero =>
        exact absurd (by simpa [pixel_hit, List.getD_cons_zero] using hhit) hcl
      | succ k1 =>
        simp only [render_loop]
        rw [if_neg hcl]
        apply ih
        refine ⟨k1, by simpa using hk, ?_, by omega⟩
        simpa [List.getD_cons_succ] using hhit

/-- If every hitting pixel of the remaining scan sits strictly inside the
buffer bound, the scan completes with status 0: the bound is checked only
in the hit branch. -/
theorem render_loop_ok (sphere_list : List sphere_t) (origin : vector_t)
    (fov_x fov_y : ℝ) (screen_width screen_height image_sz : ℕ) :
    ∀ (pixel_list : List (ℕ × ℕ)) (image : List ℤ) (image_ofs : ℕ),
      (∀ k, k < pixel_list.length →
        pixel_hit sphere_list origin fov_x fov_y screen_width screen_height
          (pixel_list.getD k (0, 0)) →
        image_ofs + 3 * k < image_sz) →
      (render_loop sphere_list origin fov_x fov_y screen_width screen_height
        image_sz pixel_list image image_ofs).1 = 0 := by
  intro pixel_list
  induction pixel_list with
  | nil =>
    intro image image_ofs _
    rfl
  | cons p rest ih =>
    intro image image_ofs hall
    obtain ⟨y, x⟩ := p
    by_cases hcl : (find_closest sphere_list
        (pixel_ray origin fov_x fov_y screen_width screen_height x y)).1 ≠ -1
    · have hofs : image_ofs < image_sz := by
        have := hall 0 (by simp) (by simpa [pixel_hit, List.getD_cons_zero] using hcl)
        simpa using this
      simp only [render_loop]
      rw [if_pos hcl, if_neg (not_le.2 hofs)]
      apply ih
      intro k hk hhit
      have := hall (k + 1) (by simpa using hk)
        (by simpa [List.getD_cons_succ] using hhit)
      omega
    · simp only [render_loop]
      rw [if_neg hcl]
      apply ih
      intro k hk hhit
      have := hall (k + 1) (by simpa using hk)
        (by simpa [List.getD_cons_succ] using hhit)
      omega

/-- Claim C1 (amended): `render_scene` reports the buffer fault (returns 1)
exactly when the scan reaches a pixel that hits a sphere at a base offset
`3*k` already past the buffer size; an undersized buffer alone does not
force failure.  In particular a buffer that is at most two bytes shorter
than `width*height*3` — including the one-byte-short boundary case — always
yields status 0, because every pixel's base offset 3*k is at most
`3*(width*height−1)`, which is still inside such a buffer. -/
theorem C1_undersized_buffer (image_sz screen_width screen_height : ℕ)
    (cam : camera_t) (sphere_list : List sphere_t) :
    ((∃ k, k < (pixels screen_width screen_height).length ∧
        pixel_hit sphere_list cam.pos (3.14 / 4)
          (3.14 / 4 * ((screen_height : ℝ) / (screen_width : ℝ)))
          screen_width screen_height
          ((pixels screen_width screen_height).getD k (0, 0)) ∧
        image_sz ≤ 3 * k) →
      (render_scene image_sz screen_width screen_height cam sphere_list).1 = 1) ∧
    (3 * screen_width * screen_height ≤ image_sz + 2 →
      (render_scene image_sz screen_width screen_height cam sphere_list).1 = 0) := by
  constructor
  · intro h
    obtain ⟨k, hk, hhit, hsz⟩ := h
    simp only [render_scene]
    apply render_loop_abort
    exact ⟨k, hk, hhit, by omega⟩
  · intro h
    simp only [render_scene]
    apply render_loop_ok
    intro k hk _
    rw [pixels_length] at hk
    have hm : 3 * screen_width * screen_height
        = 3 * (screen_height * screen_width) := by ring
    omega

/-- Claim C10: the buffer-bound check runs only for pixels whose ray hits a
sphere, so whenever no hitting pixel sits at offset `3*k ≥ image_sz` — in
particular for every render of an empty sphere list — `render_scene`
returns 0 no matter how small the buffer is. -/
theorem C10_check_only_on_hit (image_sz screen_width screen_height : ℕ)
    (cam : camera_t) (sphere_list : List sphere_t)
    (h : ∀ k, k < (pixels screen_width screen_height).length →
        pixel_hit sphere_list cam.pos (3.14 / 4)
          (3.14 / 4 * ((screen_height : ℝ) / (screen_width : ℝ)))
          screen_width screen_height
          ((pixels screen_width screen_height).getD k (0, 0)) →
        3 * k < image_sz) :
    (render_scene image_sz screen_width screen_height cam sphere_list).1 = 0 := by
  simp only [render_scene]
  apply render_loop_ok
  intro k hk hhit
  have := h k hk hhit
  omega

/-- Unfolding of `sphere_intersect` in the no-hit case `d2 < 0` (with the
projection nonnegative, so the first guard falls through). -/
theorem sphere_intersect_nohit_d2 (s : sphere_t) (ray : ray_t)
    (hv : 0 ≤ vector_dot (vector_sub s.center ray.origin) ray.dir)
    (hd2 : s.radius * s.radius
        - vector_length (vector_sub s.center ray.origin)
          * vector_length (vector_sub s.center ray.origin)
        + vector_dot (vector_sub s.center ray.origin) ray.dir
          * vector_dot (vector_sub s.center ray.origin) ray.dir < 0) :
    sphere_intersect s ray = 0 := by
  simp only [sphere_intersect]
  rw [if_neg (not_lt.2 hv), if_pos hd2]

/-- The vector (0,0,−1) already has length 1, so normalizing keeps it. -/
theorem normal_unit_z : vector_normal ⟨0, 0, -1⟩ = ⟨0, 0, -1⟩ := by
  simp only [vector_normal, vector_length]
  norm_num

/-- The center pixel (x,y) = (1,1) of a 2×2 image has both numerators
`2*x − width` and `2*y − height` equal to 0, so for any field-of-view values
the ray is exactly (0,0,−1) from the origin. -/
theorem center_pixel_ray (fov_x fov_y : ℝ) :
    pixel_ray ⟨0, 0, 0⟩ fov_x fov_y 2 2 1 1 = ray0 := by
  simp only [pixel_ray, ray0]
  norm_num [normal_unit_z]

/-- Defining shape of `pixel_ray`. -/
theorem pixel_ray_shape (origin : vector_t) (fov_x fov_y : ℝ)
    (screen_width screen_height x y : ℕ) :
    pixel_ray origin fov_x fov_y screen_width screen_height x y
      = ⟨origin, vector_normal
          ⟨Real.tan fov_x * (2 * (x : ℝ) - screen_width) / screen_width,
           Real.tan fov_y * (2 * (y : ℝ) - screen_height) / screen_height,
           -1⟩⟩ := rfl

/-- Lower bound for the render loop's fixed field of view:
`0.785 = 3.14/4 < tan (3.14/4)` since `x < tan x` on (0, π/2). -/
theorem tan_fov_lower : (0.785 : ℝ) < Real.tan (3.14 / 4) := by
  have h1 : (0 : ℝ) < 3.14 / 4 := by norm_num
  have hpi : (3.14 : ℝ) < Real.pi := Real.pi_gt_d2
  have h2 : (3.14 : ℝ) / 4 < Real.pi / 2 := by linarith
  have h3 := Real.lt_tan h1 h2
  linarith

/-- Upper bound for the fixed field of view: `tan (3.14/4) < tan (π/4) = 1`
by strict monotonicity of `tan` on `[0, π/2)`. -/
theorem tan_fov_upper : Real.tan (3.14 / 4) < 1 := by
  have hpi : (3.14 : ℝ) < Real.pi := Real.pi_gt_d2
  have hq : Real.pi / 4 < Real.pi / 2 := by linarith [Real.pi_pos]
  have h := Real.tan_lt_tan_of_nonneg_of_lt_pi_div_two
    (by norm_num : (0:ℝ) ≤ 3.14 / 4) hq (by linarith : (3.14:ℝ)/4 < Real.pi / 4)
  rw [Real.tan_pi_div_four] at h
  exact h

/-- Any ray from the origin whose pre-normalization direction `(a, b, -1)`
deviates enough from the axis (`a*a + b*b ≥ 3/5`) misses `far_sphere`: the
d2 discriminant is negative. -/
theorem far_miss (a b : ℝ) (hab : (3/5 : ℝ) ≤ a * a + b * b) :
    sphere_intersect far_sphere ⟨⟨0, 0, 0⟩, vector_normal ⟨a, b, -1⟩⟩ = 0 := by
  have hq0 : (0:ℝ) < a * a + b * b + -1 * -1 := by nlinarith
  have hq : (8/5 : ℝ) ≤ a * a + b * b + -1 * -1 := by nlinarith
  have hlpos : 0 < vector_length ⟨a, b, -1⟩ := by
    simp only [vector_length]
    exact Real.sqrt_pos.2 hq0
  have hlne : vector_length ⟨a, b, -1⟩ ≠ 0 := ne_of_gt hlpos
  have hll : vector_length ⟨a, b, -1⟩ * vector_length ⟨a, b, -1⟩
      = a * a + b * b + -1 * -1 := by
    simp only [vector_length]
    exact Real.mul_self_sqrt (le_of_lt hq0)
  have hnorm : vector_normal ⟨a, b, -1⟩
      = ⟨a / vector_length ⟨a, b, -1⟩, b / vector_length ⟨a, b, -1⟩,
         -1 / vector_length ⟨a, b, -1⟩⟩ := by
    simp only [vector_normal, if_neg hlne]
  have hoe : vector_sub far_sphere.center ⟨0, 0, 0⟩ = ⟨0, 0, -200000⟩ := by
    simp only [far_sphere, vector_sub]
    norm_num
  have hdot : vector_dot ⟨0, 0, -200000⟩ (vector_normal ⟨a, b, -1⟩)
      = 200000 / vector_length ⟨a, b, -1⟩ := by
    rw [hnorm]
    simp only [vector_dot]
    ring
  have hc2 : vector_length ⟨(0:ℝ), 0, -200000⟩ * vector_length ⟨(0:ℝ), 0, -200000⟩
      = 40000000000 := by
    simp only [vector_length]
    norm_num
  apply sphere_intersect_nohit_d2
  · show 0 ≤ vector_dot (vector_sub far_sphere.center ⟨0, 0, 0⟩) (vector_normal ⟨a, b, -1⟩)
    rw [hoe, hdot]
    positivity
  · show far_sphere.radius * far_sphere.radius
        - vector_length (vector_sub far_sphere.center ⟨0, 0, 0⟩)
          * vector_length (vector_sub far_sphere.center ⟨0, 0, 0⟩)
        + vector_dot (vector_sub far_sphere.center ⟨0, 0, 0⟩) (vector_normal ⟨a, b, -1⟩)
          * vector_dot (vector_sub far_sphere.center ⟨0, 0, 0⟩) (vector_normal ⟨a, b, -1⟩) < 0
    rw [hoe, hdot, hc2]
    have hrad : far_sphere.radius = 100 := rfl
    rw [hrad]
    rw [div_mul_div_comm, hll]
    have hdiv : (200000 : ℝ) * 200000 / (a * a + b * b + -1 * -1)
        ≤ 200000 * 200000 / (8/5) := by
      apply div_le_div_of_nonneg_left (by norm_num) (by norm_num) hq
    norm_num at hdiv ⊢
    linarith

/-- The inner loop on a one-sphere list either records sphere 0 (positive
distance below the sentinel) or keeps `(-1, 100000)`. -/
theorem find_closest_single (s : sphere_t) (ray : ray_t) :
    find_closest [s] ray
      = if 0 < sphere_intersect s ray ∧ sphere_intersect s ray < 100000
        then (0, sphere_intersect s ray) else (-1, 100000) := by
  simp only [find_closest, find_closest_aux]

/-- For `ray0`, sphere `s10` is recorded: distance 9 is positive and below
the sentinel. -/
theorem find_closest_s10 : find_closest [s10] ray0 = (0, 9) := by
  rw [find_closest_single, s10_dist]
  norm_num

/-- For `ray0`, `far_sphere` is not recorded: its distance 199900 fails the
test `dist < 100000`. -/
theorem find_closest_far : find_closest [far_sphere] ray0 = (-1, 100000) := by
  rw [find_closest_single, far_dist]
  norm_num

/-- One scan step at a pixel whose ray records no sphere: the buffer is
untouched and the offset advances by 3. -/
theorem render_loop_cons_nohit (sphere_list : List sphere_t) (origin : vector_t)
    (fov_x fov_y : ℝ) (screen_width screen_height image_sz : ℕ) (x y : ℕ)
    (rest : List (ℕ × ℕ)) (image : List ℤ) (image_ofs : ℕ)
    (h : (find_closest sphere_list
        (pixel_ray origin fov_x fov_y screen_width screen_height x y)).1 = -1) :
    render_loop sphere_list origin fov_x fov_y screen_width screen_height
        image_sz ((y, x) :: rest) image image_ofs
      = render_loop sphere_list origin fov_x fov_y screen_width screen_height
        image_sz rest image (image_ofs + 3) := by
  simp only [render_loop]
  rw [if_neg (by simp [h])]

/-- The 2×2 pixel list in scan order. -/
theorem pixels_two : pixels 2 2 = [(0, 0), (0, 1), (1, 0), (1, 1)] := rfl

/-- Pixel (y,x) = (0,0) of the 2×2 render: pre-normalization direction
(−tan fovX, −tan fovY, −1); with both fov values 3.14/4 the deviation is
large enough that `far_sphere` is missed. -/
theorem far_nohit_00 :
    find_closest [far_sphere]
      (pixel_ray ⟨0, 0, 0⟩ (3.14/4) (3.14/4) 2 2 0 0) = (-1, 100000) := by
  rw [pixel_ray_shape]
  have hx : Real.tan (3.14/4) * (2 * ((0:ℕ):ℝ) - ((2:ℕ):ℝ)) / ((2:ℕ):ℝ)
      = -Real.tan (3.14/4) := by
    push_cast
    ring
  rw [hx]
  have hm := far_miss (-Real.tan (3.14/4)) (-Real.tan (3.14/4))
    (by nlinarith [tan_fov_lower])
  rw [find_closest_single, hm]
  norm_num

/-- Pixel (y,x) = (0,1): pre-normalization direction (0, −tan fovY, −1);
`far_sphere` is missed. -/
theorem far_nohit_01 :
    find_closest [far_sphere]
      (pixel_ray ⟨0, 0, 0⟩ (3.14/4) (3.14/4) 2 2 1 0) = (-1, 100000) := by
  rw [pixel_ray_shape]
  have hx : Real.tan (3.14/4) * (2 * ((1:ℕ):ℝ) - ((2:ℕ):ℝ)) / ((2:ℕ):ℝ)
      = 0 := by
    push_cast
    ring
  have hy : Real.tan (3.14/4) * (2 * ((0:ℕ):ℝ) - ((2:ℕ):ℝ)) / ((2:ℕ):ℝ)
      = -Real.tan (3.14/4) := by
    push_cast
    ring
  rw [hx, hy]
  have hm := far_miss 0 (-Real.tan (3.14/4)) (by nlinarith [tan_fov_lower])
  rw [find_closest_single, hm]
  norm_num

/-- Pixel (y,x) = (1,0): pre-normalization direction (−tan fovX, 0, −1);
`far_sphere` is missed. -/
theorem far_nohit_10 :
    find_closest [far_sphere]
      (pixel_ray ⟨0, 0, 0⟩ (3.14/4) (3.14/4) 2 2 0 1) = (-1, 100000) := by
  rw [pixel_ray_shape]
  have hx : Real.tan (3.14/4) * (2 * ((0:ℕ):ℝ) - ((2:ℕ):ℝ)) / ((2:ℕ):ℝ)
      = -Real.tan (3.14/4) := by
    push_cast
    ring
  have hy : Real.tan (3.14/4) * (2 * ((1:ℕ):ℝ) - ((2:ℕ):ℝ)) / ((2:ℕ):ℝ)
      = 0 := by
    push_cast
    ring
  rw [hx, hy]
  have hm := far_miss (-Real.tan (3.14/4)) 0 (by nlinarith [tan_fov_lower])
  rw [find_closest_single, hm]
  norm_num

/-- Pixel (y,x) = (1,1): the center ray (0,0,−1) does hit `far_sphere`, at
distance 199900, but that fails `dist < 100000`, so nothing is recorded. -/
theorem far_nohit_11 :
    find_closest [far_sphere]
      (pixel_ray ⟨0, 0, 0⟩ (3.14/4) (3.14/4) 2 2 1 1) = (-1, 100000) := by
  rw [center_pixel_ray]
  exact find_closest_far

/-- Counterexample to claim C3 as stated: in the 2×2 render of the single
sphere `far_sphere` (color (255,0,0)), the ray of pixel (1,1) intersects
the sphere at the positive distance 199900, yet `render_scene` returns the
all-zero buffer — the pixel keeps the background instead of the color of
the sphere with the smallest positive intersection distance, because
199900 is not below the 100000 start value of `min_dist`. -/
theorem C3_cex :
    pixel_ray cam0.pos (3.14 / 4) (3.14 / 4) 2 2 1 1 = ray0 ∧
    sphere_intersect far_sphere ray0 = 199900 ∧
    render_scene 12 2 2 cam0 [far_sphere] = (0, List.replicate 12 0) := by
  refine ⟨center_pixel_ray _ _, far_dist, ?_⟩
  simp only [render_scene, pixels_two, cam0]
  have hfy : (3.14 / 4 : ℝ) * (((2:ℕ):ℝ) / ((2:ℕ):ℝ)) = 3.14 / 4 := by norm_num
  rw [hfy]
  have h00 : (find_closest [far_sphere]
      (pixel_ray ⟨0, 0, 0⟩ (3.14/4) (3.14/4) 2 2 0 0)).1 = -1 := by
    rw [far_nohit_00]
  have h01 : (find_closest [far_sphere]
      (pixel_ray ⟨0, 0, 0⟩ (3.14/4) (3.14/4) 2 2 1 0)).1 = -1 := by
    rw [far_nohit_01]
  have h10 : (find_closest [far_sphere]
      (pixel_ray ⟨0, 0, 0⟩ (3.14/4) (3.14/4) 2 2 0 1)).1 = -1 := by
    rw [far_nohit_10]
  have h11 : (find_closest [far_sphere]
      (pixel_ray ⟨0, 0, 0⟩ (3.14/4) (3.14/4) 2 2 1 1)).1 = -1 := by
    rw [far_nohit_11]
  rw [render_loop_cons_nohit _ _ _ _ _ _ _ _ _ _ _ _ h00]
  rw [render_loop_cons_nohit _ _ _ _ _ _ _ _ _ _ _ _ h01]
  rw [render_loop_cons_nohit _ _ _ _ _ _ _ _ _ _ _ _ h10]
  rw [render_loop_cons_nohit _ _ _ _ _ _ _ _ _ _ _ _ h11]
  rfl

/-- Counterexample to claim C1 as stated: a buffer of 2 bytes is smaller
than width*height*3 = 3 (one byte short), yet rendering the (empty-sphere)
scene returns status 0, not a failure: the bound check runs only in the hit
branch, so an undersized buffer does not make every render fail. -/
theorem C1_cex :
    (2:ℕ) < 1 * 1 * 3 ∧
    render_scene 2 1 1 cam0 [] = (0, List.replicate 2 0) := by
  refine ⟨by norm_num, ?_⟩
  simp only [render_scene]
  exact render_loop_nil_spheres _ _ _ _ _ _ _ _ _

/-- Witness for the amended C1: with the 2×2 scene of `s10` (every center
pixel ray hits at distance 9), a 5-byte buffer fails because hitting pixel
(1,1) sits at offset 9 ≥ 5; but an 11-byte buffer — exactly one byte short
of 12 — still returns 0 even though pixel (1,1) hits and writes. -/
theorem C1_undersized_buffer_witness :
    (render_scene 5 2 2 cam0 [s10]).1 = 1 ∧
    (render_scene 11 2 2 cam0 [s10]).1 = 0 := by
  constructor
  · refine (C1_undersized_buffer 5 2 2 cam0 [s10]).1 ⟨3, ?_, ?_, by norm_num⟩
    · rw [pixels_length]
      norm_num
    · have hp : (pixels 2 2).getD 3 (0, 0) = (1, 1) := rfl
      rw [hp]
      simp only [pixel_hit, cam0]
      rw [center_pixel_ray, find_closest_s10]
      norm_num
  · exact (C1_undersized_buffer 11 2 2 cam0 [s10]).2 (by norm_num)

/-- Witness for the amended C3: for the one-sphere list `[s10]` and the
center ray, the hypothesis holds (distance 9 is positive and below 100000),
so the loop selects index 0 with the minimal positive distance. -/
theorem C3_nearest_hit_witness :
    ∃ j, j < ([s10] : List sphere_t).length ∧
      find_closest [s10] ray0
        = ((j : ℤ), sphere_intersect (([s10] : List sphere_t).getD j default) ray0) ∧
      0 < sphere_intersect (([s10] : List sphere_t).getD j default) ray0 ∧
      (∀ k, k < ([s10] : List sphere_t).length →
        0 < sphere_intersect (([s10] : List sphere_t).getD k default) ray0 →
        sphere_intersect (([s10] : List sphere_t).getD j default) ray0
          ≤ sphere_intersect (([s10] : List sphere_t).getD k default) ray0) ∧
      (∀ k, k < j →
        0 < sphere_intersect (([s10] : List sphere_t).getD k default) ray0 →
        sphere_intersect (([s10] : List sphere_t).getD j default) ray0
          < sphere_intersect (([s10] : List sphere_t).getD k default) ray0) := by
  apply C3_nearest_hit
  refine ⟨0, by norm_num, ?_, ?_⟩
  · rw [List.getD_cons_zero, s10_dist]
    norm_num
  · rw [List.getD_cons_zero, s10_dist]
    norm_num

/-- Witness for C9: `far_sphere` is hit by `ray0` at distance 199900 ≥
100000, so it is not recorded as closest (index 0 is refused) and the loop
ends with the untouched accumulator `(-1, 100000)`. -/
theorem C9_finite_sentinel_witness :
    (find_closest [far_sphere] ray0).1 ≠ ((0:ℕ) : ℤ) ∧
    find_closest [far_sphere] ray0 = (-1, 100000) := by
  constructor
  · refine (C9_finite_sentinel [far_sphere] ray0).1 0 (by norm_num) ?_ ?_
    · rw [List.getD_cons_zero, far_dist]
      norm_num
    · rw [List.getD_cons_zero, far_dist]
      norm_num
  · refine (C9_finite_sentinel [far_sphere] ray0).2 ?_
    intro k hk
    have hk0 : k = 0 := by simpa using hk
    subst hk0
    rw [List.getD_cons_zero, far_dist]
    intro _
    norm_num

/-- Witness for C10: with no spheres, a 1-byte buffer for a 2×2 render (11
bytes too small) still returns 0, the hypothesis holding vacuously. -/
theorem C10_check_only_on_hit_witness :
    (render_scene 1 2 2 cam0 []).1 = 0 := by
  apply C10_check_only_on_hit
  intro k hk hhit
  exact absurd hhit (by simp [pixel_hit, find_closest, find_closest_aux])
